import Mathlib

/-!
Verification of the analytics-engine metadata/session core.

This file shallowly embeds the two source modules
`app/model/metadata/clickhouse.py` (ClickHouse type mapping and table
assembly) and `app/mdl/core.py` (the `functools.cache`-memoized
`get_session_context` factory and the manifest codec wrapper), and proves
the specified properties about them.
-/

set_option autoImplicit false

namespace AnalyticsEngine

/-- The closed canonical column type vocabulary
(`RustAnalyticsEngineColumnType` in `app/model/metadata/dto.py`). -/
inductive RustAnalyticsEngineColumnType where
  | BOOL
  | TINYINT
  | INT2
  | INT4
  | INT8
  | FLOAT4
  | FLOAT8
  | DECIMAL
  | DATE
  | TIMESTAMP
  | VARCHAR
  | CHAR
  | UUID
  | STRING
  | INET
  | UNKNOWN
  deriving DecidableEq

open RustAnalyticsEngineColumnType

/-- Python's `str.lower` restricted to the ASCII inputs this module handles:
each character is lowercased individually (`Char.toLower` lowercases the
ASCII range, exactly as `str.lower` does on ASCII text). -/
def pyLower (s : String) : String :=
  String.mk (s.data.map Char.toLower)

/-- First-match association-list lookup, the model of Python's `dict.get`
over a dict literal with distinct keys. -/
def alookup {α β : Type} [DecidableEq α] (k : α) : List (α × β) → Option β
  | [] => none
  | (a, v) :: rest => if a = k then some v else alookup k rest

/-- The module-level `CLICKHOUSE_TYPE_MAPPING` dict of
`app/model/metadata/clickhouse.py`, in source order. -/
def CLICKHOUSE_TYPE_MAPPING : List (String × RustAnalyticsEngineColumnType) :=
  [ ("boolean", BOOL),
    ("int8", TINYINT),
    ("uint8", INT2),
    ("int16", INT2),
    ("uint16", INT2),
    ("int32", INT4),
    ("uint32", INT4),
    ("int64", INT8),
    ("uint64", INT8),
    ("float32", FLOAT4),
    ("float64", FLOAT8),
    ("decimal", DECIMAL),
    ("date", DATE),
    ("datetime", TIMESTAMP),
    ("string", VARCHAR),
    ("fixedstring", CHAR),
    ("uuid", UUID),
    ("enum8", STRING),
    ("enum16", STRING),
    ("ipv4", INET),
    ("ipv6", INET) ]

/-- Embedding of `ClickHouseMetadata._transform_column_type`: lowercase the
input, look it up in `CLICKHOUSE_TYPE_MAPPING` with `UNKNOWN` as default, and
if the result is `UNKNOWN` emit one warning carrying the original string.
Returns the mapped type together with the list of emitted warning events. -/
def transform_column_type (data_type : String) :
    RustAnalyticsEngineColumnType × List String :=
  let normalized := pyLower data_type
  let mapped := (alookup normalized CLICKHOUSE_TYPE_MAPPING).getD UNKNOWN
  (mapped, if mapped = UNKNOWN then [data_type] else [])

theorem mapping_keys_sound :
    ∀ p ∈ CLICKHOUSE_TYPE_MAPPING,
      (alookup p.1 CLICKHOUSE_TYPE_MAPPING).getD UNKNOWN = p.2 := by
  decide

/-- C5: type mapping is case-insensitive and deterministic: strings with the
same case-folded form map to the same canonical type; every entry of the
mapping table is reached by any casing of its key; in particular both
`"INT32"` and `"int32"` map to `INT4`. -/
theorem C5_type_mapping_case_insensitive :
    (∀ s t : String, pyLower s = pyLower t →
        (transform_column_type s).1 = (transform_column_type t).1) ∧
    (∀ p ∈ CLICKHOUSE_TYPE_MAPPING, ∀ s : String,
        pyLower s = p.1 → (transform_column_type s).1 = p.2) ∧
    (transform_column_type "INT32").1 = INT4 ∧
    (transform_column_type "int32").1 = INT4 := by
  refine ⟨fun s t h => by simp only [transform_column_type, h], ?_, by decide, by decide⟩
  intro p hp s hs
  simp only [transform_column_type, hs]
  exact mapping_keys_sound p hp

/-- Witness for C5 at concrete inputs. -/
theorem C5_type_mapping_case_insensitive_witness :
    (transform_column_type "INT32").1 = (transform_column_type "int32").1 ∧
    (transform_column_type "Int32").1 = INT4 :=
  ⟨C5_type_mapping_case_insensitive.1 "INT32" "int32" (by decide),
   C5_type_mapping_case_insensitive.2.1 ("int32", INT4) (by decide) "Int32" (by decide)⟩

/-- C6: any string whose case-folded form is absent from the mapping table
maps to `UNKNOWN` with exactly one warning event carrying the original,
non-normalized string (and, the function being total, no exception). -/
theorem C6_unmapped_type_unknown (s : String)
    (h : alookup (pyLower s) CLICKHOUSE_TYPE_MAPPING = none) :
    transform_column_type s = (UNKNOWN, [s]) := by
  simp [transform_column_type, h]

/-- Witness for C6 at the parameterized type string and the empty string. -/
theorem C6_unmapped_type_unknown_witness :
    transform_column_type "array(string)" = (UNKNOWN, ["array(string)"]) ∧
    transform_column_type "" = (UNKNOWN, [""]) :=
  ⟨C6_unmapped_type_unknown "array(string)" (by decide),
   C6_unmapped_type_unknown "" (by decide)⟩

/-- The `TableProperties` DTO: catalog is optional, schema and table are the
raw identifiers copied from the source row. -/
structure TableProperties where
  catalog : Option String
  schema : String
  table : String
  deriving DecidableEq

/-- The `Column` DTO as populated by `ClickHouseMetadata.get_table_list`.
The source-specific `properties` map is opaque and only ever `None` here,
so it is embedded as `Option Unit`. -/
structure Column where
  name : String
  type : RustAnalyticsEngineColumnType
  notNull : Bool
  description : Option String
  properties : Option Unit
  deriving DecidableEq

/-- The `Table` DTO as populated by `ClickHouseMetadata.get_table_list`. -/
structure Table where
  name : String
  description : Option String
  columns : List Column
  properties : TableProperties
  primaryKey : String
  deriving DecidableEq

/-- One raw catalog row of the introspection query in `get_table_list`
(`table_schema`, `table_name`, `table_comment`, `column_name`, `data_type`,
`column_comment`). -/
structure RawRow where
  table_schema : String
  table_name : String
  table_comment : Option String
  column_name : String
  data_type : String
  column_comment : Option String
  deriving DecidableEq

/-- Embedding of `ClickHouseMetadata._format_compact_table_name`. -/
def format_compact_table_name (schema table : String) : String :=
  schema ++ "." ++ table

/-- The compact name computed for a raw row. -/
def rowKey (r : RawRow) : String :=
  format_compact_table_name r.table_schema r.table_name

/-- The `Column(...)` constructed for a row in the loop body of
`get_table_list`. -/
def mkColumn (r : RawRow) : Column :=
  { name := r.column_name
    type := (transform_column_type r.data_type).1
    notNull := false
    description := r.column_comment
    properties := none }

/-- The `Table(...)` shell created on first occurrence of a compact name. -/
def mkTableShell (key : String) (r : RawRow) : Table :=
  { name := key
    description := r.table_comment
    columns := []
    properties := { catalog := none, schema := r.table_schema, table := r.table_name }
    primaryKey := "" }

/-- The `unique_tables` dict, modelled as an insertion-ordered association
list (Python dicts preserve insertion order, and `get_table_list` only ever
appends previously unseen keys). -/
abbrev Acc := List (String × Table)

/-- Membership test on the dict, modelling `schema_table not in unique_tables`. -/
def hasKey (acc : Acc) (k : String) : Bool :=
  acc.any fun p => decide (p.1 = k)

/-- Appending one column to a table, modelling `table.columns.append(...)`. -/
def appendColumn (c : Column) (t : Table) : Table :=
  { t with columns := t.columns ++ [c] }

/-- In-place update of the entry with key `k`, modelling mutation of
`unique_tables[schema_table]`. -/
def updateValue (acc : Acc) (k : String) (f : Table → Table) : Acc :=
  acc.map fun p => if p.1 = k then (p.1, f p.2) else p

/-- One iteration of the `for row in response` loop in `get_table_list`:
insert a fresh table shell if the compact name is unseen, then append the
row's column to that table. -/
def addRow (acc : Acc) (r : RawRow) : Acc :=
  let key := rowKey r
  let acc1 := if hasKey acc key then acc else acc ++ [(key, mkTableShell key r)]
  updateValue acc1 key (appendColumn (mkColumn r))

/-- Embedding of the assembly part of `ClickHouseMetadata.get_table_list`:
fold the rows through the loop body and return `list(unique_tables.values())`. -/
def get_table_list (rows : List RawRow) : List Table :=
  (rows.foldl addRow []).map Prod.snd

/-- Modelled from the spec (§4.3): one representative row per compact name,
in first-seen order. `seen` accumulates the keys already represented. -/
def firstRowsAux (seen : List String) : List RawRow → List RawRow
  | [] => []
  | r :: rs =>
      if rowKey r ∈ seen then firstRowsAux seen rs
      else r :: firstRowsAux (rowKey r :: seen) rs

/-- First representative row of each distinct compact name, in first-seen
order. -/
def firstRows (rows : List RawRow) : List RawRow :=
  firstRowsAux [] rows

/-- Modelled from the spec (§4.3): the table assembled for the compact name
of representative row `r0` — shell fields from `r0`, columns taken from all
rows with the same compact name, in row arrival order. -/
def tableFor (r0 : RawRow) (rows : List RawRow) : Table :=
  { name := rowKey r0
    description := r0.table_comment
    columns := (rows.filter fun r => decide (rowKey r = rowKey r0)).map mkColumn
    properties := { catalog := none, schema := r0.table_schema, table := r0.table_name }
    primaryKey := "" }

/-- Modelled from the spec (§4.3): the assembled table list — one table per
distinct compact name in first-seen order, each with its columns in row
arrival order. -/
def spec_table_list (rows : List RawRow) : List Table :=
  (firstRows rows).map fun r0 => tableFor r0 rows

/-- The association list the fold is expected to produce after consuming
`rows`. -/
def mkAcc (rows : List RawRow) : Acc :=
  (firstRows rows).map fun r0 => (rowKey r0, tableFor r0 rows)

theorem firstRowsAux_append_singleton (seen : List String) (l : List RawRow) (r : RawRow) :
    firstRowsAux seen (l ++ [r]) =
      firstRowsAux seen l ++
        (if rowKey r ∈ seen ∨ rowKey r ∈ l.map rowKey then [] else [r]) := by
  induction l generalizing seen with
  | nil => simp [firstRowsAux]
  | cons x xs ih =>
      simp only [List.cons_append, firstRowsAux, List.map_cons, List.mem_cons,
        List.append_eq]
      by_cases hx : rowKey x ∈ seen
      · rw [if_pos hx, if_pos hx, ih]
        congr 1
        refine if_congr ⟨fun h => ?_, fun h => ?_⟩ rfl rfl
        · tauto
        · rcases h with h | h | h
          · exact Or.inl h
          · exact Or.inl (by rw [h]; exact hx)
          · exact Or.inr h
      · rw [if_neg hx, if_neg hx, ih, List.cons_append]
        congr 2
        refine if_congr ⟨fun h => ?_, fun h => ?_⟩ rfl rfl
        · rcases h with h | h
          · rcases List.mem_cons.1 h with h | h
            · exact Or.inr (Or.inl h)
            · exact Or.inl h
          · exact Or.inr (Or.inr h)
        · rcases h with h | h | h
          · exact Or.inl (List.mem_cons_of_mem _ h)
          · exact Or.inl (by rw [h]; exact List.mem_cons_self _ _)
          · exact Or.inr h

theorem mem_map_firstRowsAux (seen : List String) (l : List RawRow) (k : String) :
    k ∈ (firstRowsAux seen l).map rowKey ↔ k ∉ seen ∧ k ∈ l.map rowKey := by
  induction l generalizing seen with
  | nil => simp [firstRowsAux]
  | cons x xs ih =>
      simp only [firstRowsAux, List.map_cons, List.mem_cons]
      by_cases hx : rowKey x ∈ seen
      · rw [if_pos hx, ih]
        have hx1 : k = rowKey x → k ∈ seen := fun h => by rw [h]; exact hx
        tauto
      · rw [if_neg hx]
        simp only [List.map_cons, List.mem_cons, ih, List.mem_cons, not_or]
        have hx2 : k = rowKey x → k ∉ seen := fun h hk => hx (by rw [← h]; exact hk)
        tauto

theorem nodup_map_firstRowsAux (seen : List String) (l : List RawRow) :
    ((firstRowsAux seen l).map rowKey).Nodup := by
  induction l generalizing seen with
  | nil => simp [firstRowsAux]
  | cons x xs ih =>
      simp only [firstRowsAux]
      by_cases hx : rowKey x ∈ seen
      · rw [if_pos hx]; exact ih seen
      · rw [if_neg hx]
        simp only [List.map_cons, List.nodup_cons]
        refine ⟨fun hmem => ?_, ih _⟩
        exact ((mem_map_firstRowsAux _ _ _).1 hmem).1 (List.mem_cons_self _ _)

theorem mem_of_mem_firstRowsAux (seen : List String) (l : List RawRow) (r0 : RawRow)
    (h : r0 ∈ firstRowsAux seen l) : r0 ∈ l := by
  induction l generalizing seen with
  | nil => simp [firstRowsAux] at h
  | cons x xs ih =>
      simp only [firstRowsAux] at h
      by_cases hx : rowKey x ∈ seen
      · rw [if_pos hx] at h
        exact List.mem_cons_of_mem _ (ih _ h)
      · rw [if_neg hx] at h
        rcases List.mem_cons.1 h with rfl | h
        · exact List.mem_cons_self _ _
        · exact List.mem_cons_of_mem _ (ih _ h)

theorem hasKey_mkAcc (rows : List RawRow) (k : String) :
    hasKey (mkAcc rows) k = true ↔ k ∈ rows.map rowKey := by
  simp only [hasKey, mkAcc, List.any_eq_true]
  constructor
  · rintro ⟨p, hp, hdec⟩
    rcases List.mem_map.1 hp with ⟨r0, hr0, rfl⟩
    have hk : rowKey r0 = k := of_decide_eq_true hdec
    subst hk
    exact ((mem_map_firstRowsAux [] rows _).1 (List.mem_map.2 ⟨r0, hr0, rfl⟩)).2
  · intro hk
    rcases List.mem_map.1 ((mem_map_firstRowsAux [] rows k).2 ⟨by simp, hk⟩) with
      ⟨r0, hr0, hkey⟩
    exact ⟨(rowKey r0, tableFor r0 rows), List.mem_map.2 ⟨r0, hr0, rfl⟩,
      decide_eq_true hkey⟩

theorem tableFor_append_ne (r0 r : RawRow) (l : List RawRow)
    (h : ¬ rowKey r = rowKey r0) :
    tableFor r0 (l ++ [r]) = tableFor r0 l := by
  simp [tableFor, List.filter_append, List.filter_cons, h]

theorem tableFor_append_eq (r0 r : RawRow) (l : List RawRow)
    (h : rowKey r = rowKey r0) :
    tableFor r0 (l ++ [r]) = appendColumn (mkColumn r) (tableFor r0 l) := by
  simp [tableFor, appendColumn, List.filter_append, List.filter_cons, h]

theorem addRow_mkAcc (l : List RawRow) (r : RawRow) :
    addRow (mkAcc l) r = mkAcc (l ++ [r]) := by
  by_cases hmem : rowKey r ∈ l.map rowKey
  · have hkey : hasKey (mkAcc l) (rowKey r) = true := (hasKey_mkAcc l _).2 hmem
    have hfr : firstRows (l ++ [r]) = firstRows l := by
      unfold firstRows
      rw [firstRowsAux_append_singleton]
      simp [hmem]
    simp only [addRow, hkey, if_true]
    unfold mkAcc updateValue
    rw [hfr, List.map_map]
    refine List.map_congr_left fun r0 _ => ?_
    by_cases h0 : rowKey r0 = rowKey r
    · simp only [Function.comp, if_pos h0]
      rw [tableFor_append_eq r0 r l h0.symm]
    · simp only [Function.comp, if_neg h0]
      rw [tableFor_append_ne r0 r l fun hh => h0 hh.symm]
  · have hkey : hasKey (mkAcc l) (rowKey r) = false := by
      rw [Bool.eq_false_iff]
      intro hc
      exact hmem ((hasKey_mkAcc l _).1 hc)
    have hfr : firstRows (l ++ [r]) = firstRows l ++ [r] := by
      unfold firstRows
      rw [firstRowsAux_append_singleton]
      simp [hmem]
    simp only [addRow, hkey, Bool.false_eq_true, if_false]
    unfold mkAcc updateValue
    rw [hfr, List.map_append, List.map_append, List.map_map]
    congr 1
    · refine List.map_congr_left fun r0 hr0 => ?_
      have hne : ¬ rowKey r0 = rowKey r := by
        intro hh
        exact hmem (hh ▸ List.mem_map.2 ⟨r0, mem_of_mem_firstRowsAux [] l r0 hr0, rfl⟩)
      simp only [Function.comp, if_neg hne]
      rw [tableFor_append_ne r0 r l fun hh => hne hh.symm]
    · simp only [List.map_cons, List.map_nil, if_pos rfl]
      have hfilter : l.filter (fun s => decide (rowKey s = rowKey r)) = [] := by
        rw [List.filter_eq_nil_iff]
        intro a ha hpa
        exact hmem (of_decide_eq_true hpa ▸ List.mem_map.2 ⟨a, ha, rfl⟩)
      simp [tableFor, appendColumn, mkTableShell, mkColumn, List.filter_append,
        List.filter_cons, hfilter]

theorem foldl_addRow_eq_mkAcc (rows : List RawRow) :
    rows.foldl addRow [] = mkAcc rows := by
  induction rows using List.reverseRecOn with
  | nil => rfl
  | append_singleton l r ih =>
      rw [List.foldl_append, List.foldl_cons, List.foldl_nil, ih, addRow_mkAcc]

theorem get_table_list_eq_spec (rows : List RawRow) :
    get_table_list rows = spec_table_list rows := by
  unfold get_table_list spec_table_list
  rw [foldl_addRow_eq_mkAcc]
  unfold mkAcc
  rw [List.map_map]
  rfl

theorem get_table_list_names_nodup (rows : List RawRow) :
    ((get_table_list rows).map Table.name).Nodup := by
  rw [get_table_list_eq_spec]
  unfold spec_table_list
  rw [List.map_map]
  exact nodup_map_firstRowsAux [] rows

/-- The first example row `(s1, t1, "a", int32)` of the spec. -/
def exampleRowA : RawRow :=
  { table_schema := "s1"
    table_name := "t1"
    table_comment := none
    column_name := "a"
    data_type := "int32"
    column_comment := none }

/-- The second example row `(s1, t1, "b", string)` of the spec. -/
def exampleRowB : RawRow :=
  { table_schema := "s1"
    table_name := "t1"
    table_comment := none
    column_name := "b"
    data_type := "string"
    column_comment := none }

/-- The table the spec expects for the two example rows. -/
def exampleTable : Table :=
  { name := "s1.t1"
    description := none
    columns :=
      [ { name := "a", type := INT4, notNull := false, description := none,
          properties := none },
        { name := "b", type := VARCHAR, notNull := false, description := none,
          properties := none } ]
    properties := { catalog := none, schema := "s1", table := "t1" }
    primaryKey := "" }

/-- The table assembled when the row `(s1, t1, "a", int32)` arrives twice:
the column `"a"` is appended twice. -/
def duplicatedColumnTable : Table :=
  { name := "s1.t1"
    description := none
    columns :=
      [ { name := "a", type := INT4, notNull := false, description := none,
          properties := none },
        { name := "a", type := INT4, notNull := false, description := none,
          properties := none } ]
    properties := { catalog := none, schema := "s1", table := "t1" }
    primaryKey := "" }

/-- C4: table assembly returns exactly one table per distinct compact name in
first-seen table order with columns appended in row arrival order (the fold
refines the spec-level description `spec_table_list`), no two returned tables
share a compact name, and the spec's example rows yield exactly the single
table `s1.t1` with columns `[a:INT4, b:VARCHAR]` in that order. -/
theorem C4_table_assembly :
    (∀ rows : List RawRow,
        get_table_list rows = spec_table_list rows ∧
        ((get_table_list rows).map Table.name).Nodup) ∧
    get_table_list [exampleRowA, exampleRowB] = [exampleTable] :=
  ⟨fun rows => ⟨get_table_list_eq_spec rows, get_table_list_names_nodup rows⟩,
   by decide⟩

/-- C7 is refuted as stated: when the same (schema, table, column) row occurs
twice in the input, the assembled table holds two columns named `"a"`. -/
theorem C7_counterexample :
    ¬ ∀ rows : List RawRow, ∀ t ∈ get_table_list rows,
        (t.columns.map Column.name).Nodup := by
  intro h
  have hmem : duplicatedColumnTable ∈ get_table_list [exampleRowA, exampleRowA] := by
    decide
  exact absurd (h [exampleRowA, exampleRowA] duplicatedColumnTable hmem) (by decide)

/-- C7 (amended): for every input row sequence in which no two rows share
both the same compact table name and the same column name, no two columns in
any returned table share a name. -/
theorem C7_no_duplicate_column_names (rows : List RawRow)
    (h : rows.Pairwise fun r s =>
      rowKey r = rowKey s → r.column_name ≠ s.column_name) :
    ∀ t ∈ get_table_list rows, (t.columns.map Column.name).Nodup := by
  rw [get_table_list_eq_spec]
  intro t ht
  simp only [spec_table_list] at ht
  rcases List.mem_map.1 ht with ⟨r0, _, rfl⟩
  have hsub : (rows.filter fun r => decide (rowKey r = rowKey r0)).Pairwise
      (fun r s => rowKey r = rowKey s → r.column_name ≠ s.column_name) :=
    List.Pairwise.sublist (List.filter_sublist rows) h
  have hall : ∀ x ∈ rows.filter (fun r => decide (rowKey r = rowKey r0)),
      rowKey x = rowKey r0 :=
    fun x hx => of_decide_eq_true (List.mem_filter.1 hx).2
  have hpair : (rows.filter fun r => decide (rowKey r = rowKey r0)).Pairwise
      (fun r s => r.column_name ≠ s.column_name) :=
    List.Pairwise.imp_of_mem
      (fun ha hb hrs => hrs ((hall _ ha).trans (hall _ hb).symm)) hsub
  simp only [tableFor, List.map_map]
  exact List.pairwise_map.2 hpair

/-- Witness for the amended C7 at the spec's example rows. -/
theorem C7_no_duplicate_column_names_witness :
    ([exampleRowA, exampleRowB].Pairwise fun r s =>
      rowKey r = rowKey s → r.column_name ≠ s.column_name) ∧
    (exampleTable.columns.map Column.name).Nodup :=
  ⟨by decide,
   C7_no_duplicate_column_names [exampleRowA, exampleRowB] (by decide)
     exampleTable (by decide)⟩

/-- C10: every assembled column has `notNull = false` and `properties = none`,
and every assembled table has `primaryKey = ""` and `properties.catalog =
none`, for every input row sequence. -/
theorem C10_constant_output_fields (rows : List RawRow) :
    ∀ t ∈ get_table_list rows,
      t.primaryKey = "" ∧ t.properties.catalog = none ∧
      ∀ c ∈ t.columns, c.notNull = false ∧ c.properties = none := by
  rw [get_table_list_eq_spec]
  intro t ht
  simp only [spec_table_list] at ht
  rcases List.mem_map.1 ht with ⟨r0, _, rfl⟩
  refine ⟨rfl, rfl, ?_⟩
  intro c hc
  simp only [tableFor] at hc
  rcases List.mem_map.1 hc with ⟨r, _, rfl⟩
  exact ⟨rfl, rfl⟩

/-- Witness for C10 at the spec's example rows. -/
theorem C10_constant_output_fields_witness :
    exampleTable ∈ get_table_list [exampleRowA, exampleRowB] ∧
    (exampleTable.primaryKey = "" ∧ exampleTable.properties.catalog = none ∧
      ∀ c ∈ exampleTable.columns, c.notNull = false ∧ c.properties = none) :=
  ⟨by decide,
   C10_constant_output_fields [exampleRowA, exampleRowB] exampleTable (by decide)⟩

/-- Properties argument of `get_session_context`, Python's `frozenset`:
content-comparable and order-irrelevant, embedded as a finite set of
key/value pairs. -/
abbrev Props := Finset (String × String)

/-- One call to `get_session_context` as Python receives it: either two
positional arguments (`properties` omitted, defaulting to `None`) or all
three passed explicitly. `functools.cache` keys on exactly this argument
tuple, before default values are applied. -/
inductive Call where
  | two (manifest_str : Option String) (function_path : String)
  | three (manifest_str : Option String) (function_path : String)
      (properties : Option Props)
  deriving DecidableEq

/-- The three key components of a call after Python applies the default
value for `properties`. -/
def Call.components : Call → Option String × String × Option Props
  | Call.two m fp => (m, fp, none)
  | Call.three m fp p => (m, fp, p)

/-- Whether the `properties` argument was passed explicitly. -/
def Call.explicitProps : Call → Bool
  | Call.two _ _ => false
  | Call.three _ _ _ => true

/-- State of the `functools.cache` wrapper around `get_session_context`.
`entries` maps cached argument tuples to handles; handle identity is
modelled by allocation order (`nextHandle` counts distinct constructed
instances); `ctorLog` records every invocation of the external
`analytics_core.SessionContext` constructor, in order. -/
structure CacheState where
  entries : List (Call × Nat)
  nextHandle : Nat
  ctorLog : List Call
  deriving DecidableEq

/-- The cache before any call. -/
def emptyCache : CacheState :=
  { entries := [], nextHandle := 0, ctorLog := [] }

/-- Embedding of `get_session_context` under `functools.cache`: on a hit the
cached handle is returned and the constructor is not invoked; on a miss the
external constructor runs — `fails` says whether it raises on this
invocation — and only a successful result is stored. `none` models the
exception propagating to the caller. -/
def get_session_context (fails : Bool) (c : Call) (s : CacheState) :
    Option Nat × CacheState :=
  match alookup c s.entries with
  | some h => (some h, s)
  | none =>
      if fails then
        (none, { s with ctorLog := s.ctorLog ++ [c] })
      else
        (some s.nextHandle,
         { entries := s.entries ++ [(c, s.nextHandle)]
           nextHandle := s.nextHandle + 1
           ctorLog := s.ctorLog ++ [c] })

theorem alookup_append_right {α β : Type} [DecidableEq α] (k : α)
    (l1 l2 : List (α × β)) (h : alookup k l1 = none) :
    alookup k (l1 ++ l2) = alookup k l2 := by
  induction l1 with
  | nil => rfl
  | cons p rest ih =>
      by_cases ha : p.1 = k
      · exact absurd h (by simp [alookup, ha])
      · simp only [alookup, ha, if_false, List.cons_append, List.append_eq] at h ⊢
        exact ih h

/-- C1 is refuted as stated: the calls `get_session_context(M1, fp)` (with
`properties` omitted) and `get_session_context(M1, fp, None)` have all three
key components equal by value, yet the second call constructs and returns a
distinct handle instance. -/
theorem C1_counterexample :
    ¬ ∀ (s : CacheState) (c1 c2 : Call),
        Call.components c1 = Call.components c2 →
        ((get_session_context false c2
            (get_session_context false c1 s).2).1 =
          (get_session_context false c1 s).1 ∧
         (get_session_context false c2
            (get_session_context false c1 s).2).2.ctorLog =
          (get_session_context false c1 s).2.ctorLog) := by
  intro h
  exact absurd
    (h emptyCache (Call.two (some "M1") "fp") (Call.three (some "M1") "fp" none)
      (by decide))
    (by decide)

/-- C1 (amended): for every two calls that pass the `properties` argument
the same way (both omitted or both explicit) and whose three key components
are equal by value, the second call returns the very handle of the first and
does not invoke the external constructor. -/
theorem C1_same_key_same_handle (s : CacheState) (c1 c2 : Call)
    (hshape : c1.explicitProps = c2.explicitProps)
    (hcomp : c1.components = c2.components) :
    (get_session_context false c2 (get_session_context false c1 s).2).1 =
      (get_session_context false c1 s).1 ∧
    (get_session_context false c2 (get_session_context false c1 s).2).2.ctorLog =
      (get_session_context false c1 s).2.ctorLog := by
  have hc : c1 = c2 := by
    cases c1 <;> cases c2 <;>
      simp_all [Call.explicitProps, Call.components]
  subst hc
  unfold get_session_context
  cases hl : alookup c1 s.entries with
  | some h => simp [hl]
  | none =>
      have hl2 : alookup c1 (s.entries ++ [(c1, s.nextHandle)]) =
          some s.nextHandle := by
        rw [alookup_append_right c1 s.entries _ hl]
        simp [alookup]
      simp [hl, hl2]

/-- Witness for the amended C1: the same two-argument call made twice from
the empty cache returns the identical handle without reconstructing. -/
theorem C1_same_key_same_handle_witness :
    (Call.two (some "M1") "fp").explicitProps =
      (Call.two (some "M1") "fp").explicitProps ∧
    (Call.two (some "M1") "fp").components =
      (Call.two (some "M1") "fp").components ∧
    ((get_session_context false (Call.two (some "M1") "fp")
        (get_session_context false (Call.two (some "M1") "fp") emptyCache).2).1 =
      (get_session_context false (Call.two (some "M1") "fp") emptyCache).1 ∧
     (get_session_context false (Call.two (some "M1") "fp")
        (get_session_context false (Call.two (some "M1") "fp") emptyCache).2).2.ctorLog =
      (get_session_context false (Call.two (some "M1") "fp") emptyCache).2.ctorLog) :=
  ⟨rfl, rfl,
   C1_same_key_same_handle emptyCache (Call.two (some "M1") "fp")
     (Call.two (some "M1") "fp") rfl rfl⟩

/-- C2: a failed construction for an unseen key leaves the cache entries and
the handle counter unchanged, and a subsequent call with the same key
invokes the constructor again — here succeeding, storing and returning a
fresh handle — rather than returning a cached failure. -/
theorem C2_failed_construction_not_cached (s : CacheState) (c : Call)
    (h : alookup c s.entries = none) :
    (get_session_context true c s).1 = none ∧
    (get_session_context true c s).2.entries = s.entries ∧
    (get_session_context true c s).2.nextHandle = s.nextHandle ∧
    (get_session_context true c s).2.ctorLog = s.ctorLog ++ [c] ∧
    (get_session_context false c (get_session_context true c s).2).1 =
      some s.nextHandle ∧
    (get_session_context false c (get_session_context true c s).2).2.ctorLog =
      s.ctorLog ++ [c, c] := by
  unfold get_session_context
  simp [h]

/-- Witness for C2 at a concrete unseen key in the empty cache. -/
theorem C2_failed_construction_not_cached_witness :
    alookup (Call.two (some "M1") "fp") emptyCache.entries = none ∧
    ((get_session_context true (Call.two (some "M1") "fp") emptyCache).1 = none ∧
     (get_session_context true (Call.two (some "M1") "fp") emptyCache).2.entries =
       emptyCache.entries ∧
     (get_session_context true (Call.two (some "M1") "fp") emptyCache).2.nextHandle =
       emptyCache.nextHandle ∧
     (get_session_context true (Call.two (some "M1") "fp") emptyCache).2.ctorLog =
       emptyCache.ctorLog ++ [Call.two (some "M1") "fp"] ∧
     (get_session_context false (Call.two (some "M1") "fp")
        (get_session_context true (Call.two (some "M1") "fp") emptyCache).2).1 =
       some emptyCache.nextHandle ∧
     (get_session_context false (Call.two (some "M1") "fp")
        (get_session_context true (Call.two (some "M1") "fp") emptyCache).2).2.ctorLog =
       emptyCache.ctorLog ++
         [Call.two (some "M1") "fp", Call.two (some "M1") "fp"]) :=
  ⟨rfl,
   C2_failed_construction_not_cached emptyCache (Call.two (some "M1") "fp") rfl⟩

/-- C9: a call omitting `properties` and a call passing `None` explicitly
have equal key components, yet `functools.cache` keys on the raw argument
tuple, so starting from the empty cache the constructor runs once for each
call and the two calls return distinct handle instances. -/
theorem C9_omitted_vs_explicit_none_distinct :
    Call.components (Call.two (some "M1") "fp") =
      Call.components (Call.three (some "M1") "fp" none) ∧
    (get_session_context false (Call.two (some "M1") "fp") emptyCache).1 =
      some 0 ∧
    (get_session_context false (Call.three (some "M1") "fp" none)
        (get_session_context false (Call.two (some "M1") "fp") emptyCache).2).1 =
      some 1 ∧
    (get_session_context false (Call.three (some "M1") "fp" none)
        (get_session_context false (Call.two (some "M1") "fp") emptyCache).2).2.ctorLog =
      [Call.two (some "M1") "fp", Call.three (some "M1") "fp" none] := by
  refine ⟨rfl, by decide, by decide, by decide⟩

/-- Modelled from the spec: the manifest's logical content. The manifest is
an opaque JSON payload (§1, §4.5) and `analytics_core.to_json_base64` lives
in the engine crate outside `src/`, so the JSON document is modelled
structurally here. -/
inductive Json where
  | null
  | bool (b : Bool)
  | num (n : Int)
  | str (s : String)
  | arr (xs : List Json)
  | obj (fields : List (String × Json))

/-- JSON string escaping for the two structurally significant characters. -/
def jsonEscape (s : String) : String :=
  s.data.foldl
    (fun acc c =>
      if c = '\"' then acc ++ "\\\""
      else if c = '\\' then acc ++ "\\\\"
      else acc.push c)
    ""

mutual

/-- Modelled from the spec: canonical JSON text of a manifest value, with
object fields serialized in their given stable order (§4.5). -/
def Json.serialize : Json → String
  | Json.null => "null"
  | Json.bool true => "true"
  | Json.bool false => "false"
  | Json.num n => toString n
  | Json.str s => "\"" ++ jsonEscape s ++ "\""
  | Json.arr xs => "[" ++ serializeItems xs ++ "]"
  | Json.obj fs => "\x7b" ++ serializeFields fs ++ "\x7d"

/-- Comma-separated serialization of array items. -/
def serializeItems : List Json → String
  | [] => ""
  | [x] => Json.serialize x
  | x :: y :: rest => Json.serialize x ++ "," ++ serializeItems (y :: rest)

/-- Comma-separated serialization of object fields. -/
def serializeFields : List (String × Json) → String
  | [] => ""
  | [(k, v)] => "\"" ++ jsonEscape k ++ "\":" ++ Json.serialize v
  | (k, v) :: f :: rest =>
      "\"" ++ jsonEscape k ++ "\":" ++ Json.serialize v ++ "," ++
        serializeFields (f :: rest)

end

/-- UTF-8 bytes of one character. -/
def utf8Bytes (c : Char) : List Nat :=
  let n := c.toNat
  if n < 128 then [n]
  else if n < 2048 then [192 + n / 64, 128 + n % 64]
  else if n < 65536 then [224 + n / 4096, 128 + n / 64 % 64, 128 + n % 64]
  else [240 + n / 262144, 128 + n / 4096 % 64, 128 + n / 64 % 64, 128 + n % 64]

/-- UTF-8 byte sequence of a string. -/
def stringUTF8 (s : String) : List Nat :=
  s.data.foldr (fun c acc => utf8Bytes c ++ acc) []

/-- The RFC 4648 base64 alphabet. -/
def base64Char (i : Nat) : Char :=
  "ABCDEFGHIJKLMNOPQRSTUVWXYZabcdefghijklmnopqrstuvwxyz0123456789+/".data.getD i 'A'

/-- RFC 4648 base64 encoding of a byte list, with `=` padding. -/
def base64EncodeBytes : List Nat → String
  | b1 :: b2 :: b3 :: rest =>
      let n := b1 * 65536 + b2 * 256 + b3
      String.mk [base64Char (n / 262144 % 64), base64Char (n / 4096 % 64),
        base64Char (n / 64 % 64), base64Char (n % 64)] ++ base64EncodeBytes rest
  | [b1, b2] =>
      let n := b1 * 65536 + b2 * 256
      String.mk [base64Char (n / 262144 % 64), base64Char (n / 4096 % 64),
        base64Char (n / 64 % 64)] ++ "="
  | [b1] =>
      let n := b1 * 65536
      String.mk [base64Char (n / 262144 % 64), base64Char (n / 4096 % 64)] ++ "=="
  | [] => ""

/-- Modelled from the spec: `analytics_core.to_json_base64` (engine crate,
not under `src/`) serializes the manifest to its canonical JSON text, then
base64-encodes that text (§4.5). -/
def to_json_base64 (manifest : Json) : String :=
  base64EncodeBytes (stringUTF8 (Json.serialize manifest))

/-- A concrete manifest value used for evaluation. -/
def exampleManifest : Json :=
  Json.obj [("catalog", Json.str "c1"), ("models", Json.arr [Json.str "m1"])]

example : to_json_base64 (Json.str "a") = "ImEi" := by decide

/-- C8: manifest encoding is deterministic — applying `to_json_base64` to
manifests with the same logical content yields byte-identical output
strings. -/
theorem C8_encode_deterministic (m1 m2 : Json) (h : m1 = m2) :
    to_json_base64 m1 = to_json_base64 m2 := by
  rw [h]

/-- Witness for C8 at a concrete manifest. -/
theorem C8_encode_deterministic_witness :
    exampleManifest = exampleManifest ∧
    to_json_base64 exampleManifest = to_json_base64 exampleManifest :=
  ⟨rfl, C8_encode_deterministic exampleManifest exampleManifest rfl⟩

end AnalyticsEngine
